import Mathlib

/-!
Verification of the line-profile sampler of this repository
(skimage/viewer/plugins/lineprofile.py, function profile_line).

The function receives a 2-d (grayscale) or 3-d (3-channel) image, two
endpoints (x1, y1), (x2, y2) given as floats, and an integer linewidth.
It dispatches on the geometry:
  - x1 == x2 : vertical fast path (direct slicing, mean over the column band);
  - y1 == y2 : horizontal fast path (direct slicing);
  - otherwise: general oblique path (slope/intercept line equation, a
    perpendicular sampling grid, interpolation via scipy map_coordinates,
    mean over the perpendicular samples).

Embedding choices, faithful to the source:
  - Float endpoint coordinates are carried exactly as rationals.
  - The source runs under Python 2: linewidth / 2 on ints is floor division
    (halfw below).  Slice bounds that are floats are truncated toward zero by
    the old numpy indexing rules (ratTrunc below); numpy slices clamp to the
    array extent and wrap negative indices (normIdx, sliceIdx below).
  - np.hypot, np.cos(np.arctan2 dy dx) are modelled exactly over the reals:
    hypot dx dy = Real.sqrt (dx^2 + dy^2) and cos theta = dx / hypot.
    The along-line sample count int(np.ceil(length)) is the computable
    ceilSqrtQ of the squared length (proved equal to the real ceiling).
  - scipy.ndimage.map_coordinates is an external collaborator; it is modelled
    as an abstract per-coordinate interpolation function (Interp below)
    applied to each (y, x) coordinate pair that the source builds, which
    captures its output shape exactly and leaves its values free.
  - The per-channel buffer writes of the 3-channel general path
    (pixels[..., i] = map_coordinates(...)) are modelled by explicit state
    passing (MemState); the assignment fails, as in numpy, when the source
    array second dimension (linewidth) can not broadcast into the buffer
    second dimension int(y_width * 2 + 1).
  - numpy mean of an empty axis (a NaN in numpy) is the junk value 0 here;
    no theorem below relies on the value of an empty mean.
-/

set_option maxHeartbeats 1000000

namespace LineProfile

/-- Truncation toward zero of a rational, as Python int() applied to a float
slice index by the old numpy indexing rules. -/
def ratTrunc (q : ℚ) : ℤ := if q < 0 then ⌈q⌉ else ⌊q⌋

/-- Python slice index normalization for an axis of size n: a negative index
counts from the end, and the result is clamped into [0, n]. -/
def normIdx (n : ℕ) (i : ℤ) : ℕ := min ((if i < 0 then i + n else i).toNat) n

/-- The list of indices selected by the slice a : b on an axis of size n,
after Python normalization (possibly empty, never out of range). -/
def sliceIdx (n : ℕ) (a b : ℤ) : List ℕ :=
  List.range' (normIdx n a) (normIdx n b - normIdx n a)

/-- Mean of a list of rationals (numpy mean over an axis).  The empty mean,
a NaN in numpy, is the junk value 0 here. -/
def qmean (l : List ℚ) : ℚ := l.sum / (l.length : ℚ)

/-- Mean of a list of reals. -/
noncomputable def rmean (l : List ℝ) : ℝ := l.sum / (l.length : ℝ)

/-- Python 2 integer division linewidth / 2 from the fast-path slices. -/
def halfw (lw : ℤ) : ℤ := Int.fdiv lw 2

/-- A grayscale image: spatial extent and a pixel function (row, column). -/
structure GrayImage where
  h : ℕ
  w : ℕ
  pix : ℕ → ℕ → ℚ

/-- A 3-channel image: spatial extent and a pixel function
(row, column, channel). -/
structure RGBImage where
  h : ℕ
  w : ℕ
  pix : ℕ → ℕ → Fin 3 → ℚ

/-- An image argument of profile_line: rank 2 or rank 3. -/
inductive Image where
  | gray : GrayImage → Image
  | rgb : RGBImage → Image

/-- Number of rows of an image. -/
def Image.height : Image → ℕ
  | .gray g => g.h
  | .rgb g => g.h

/-- Abstract model of scipy.ndimage.map_coordinates: given a single-channel
pixel function it returns the interpolated sample at one real coordinate
pair (y, x), matching the (row, column) order in which the source stacks
perp_lines = [perp_ys, perp_xs]. -/
abbrev Interp : Type := (ℕ → ℕ → ℚ) → ℝ × ℝ → ℝ

/-- Row indices of the vertical fast path band:
img[min(y1, y2) : max(y1, y2) + 1, ...]. -/
def vertRows (hgt : ℕ) (p1 p2 : ℚ × ℚ) : List ℕ :=
  sliceIdx hgt (ratTrunc (min p1.2 p2.2)) (ratTrunc (max p1.2 p2.2 + 1))

/-- Column indices of the vertical fast path band:
img[..., x1 - linewidth / 2 : x1 + linewidth / 2 + 1]. -/
def vertCols (wid : ℕ) (x1 : ℚ) (lw : ℤ) : List ℕ :=
  sliceIdx wid (ratTrunc (x1 - (halfw lw : ℚ))) (ratTrunc (x1 + (halfw lw : ℚ) + 1))

/-- Vertical fast path on a grayscale image: slice the band, mean over
axis 1 (the column band), then append the singleton channel axis. -/
def verticalGray (g : GrayImage) (p1 p2 : ℚ × ℚ) (lw : ℤ) : List (List ℚ) :=
  (vertRows g.h p1 p2).map (fun r =>
    [qmean ((vertCols g.w p1.1 lw).map (fun c => g.pix r c))])

/-- Vertical fast path on a 3-channel image: the try/except loop stacks the
three channel slices, then mean over axis 1 (the column band) gives one
3-vector per row of the band. -/
def verticalRGB (g : RGBImage) (p1 p2 : ℚ × ℚ) (lw : ℤ) : List (List ℚ) :=
  (vertRows g.h p1 p2).map (fun r =>
    (List.finRange 3).map (fun i =>
      qmean ((vertCols g.w p1.1 lw).map (fun c => g.pix r c i))))

/-- Row indices of the horizontal fast path band:
img[y1 - linewidth / 2 : y1 + linewidth / 2 + 1, ...]. -/
def horizRows (hgt : ℕ) (y1 : ℚ) (lw : ℤ) : List ℕ :=
  sliceIdx hgt (ratTrunc (y1 - (halfw lw : ℚ))) (ratTrunc (y1 + (halfw lw : ℚ) + 1))

/-- Column indices of the horizontal fast path span:
img[..., min(x1, x2) : max(x1, x2) + 1]. -/
def horizCols (wid : ℕ) (p1 p2 : ℚ × ℚ) : List ℕ :=
  sliceIdx wid (ratTrunc (min p1.1 p2.1)) (ratTrunc (max p1.1 p2.1 + 1))

/-- Horizontal fast path on a grayscale image.  The source takes
pixels.mean(axis=1) here, the mean over the along-line column span, so the
output is indexed by the rows of the width band, not by the columns. -/
def horizontalGray (g : GrayImage) (p1 p2 : ℚ × ℚ) (lw : ℤ) : List (List ℚ) :=
  (horizRows g.h p1.2 lw).map (fun r =>
    [qmean ((horizCols g.w p1 p2).map (fun c => g.pix r c))])

/-- Horizontal fast path on a 3-channel image: mean over axis 0 (the row
band) gives one 3-vector per column of the span. -/
def horizontalRGB (g : RGBImage) (p1 p2 : ℚ × ℚ) (lw : ℤ) : List (List ℚ) :=
  (horizCols g.w p1 p2).map (fun c =>
    (List.finRange 3).map (fun i =>
      qmean ((horizRows g.h p1.2 lw).map (fun r => g.pix r c i))))

/-- Least natural n with q le n^2; exists since the natural ceiling works. -/
lemma exists_nat_sq_ge (q : ℚ) : ∃ n : ℕ, q ≤ (n : ℚ) ^ 2 := by
  refine ⟨⌈q⌉₊, le_trans (Nat.le_ceil q) ?_⟩
  have h := Nat.le_self_pow (two_ne_zero) ⌈q⌉₊
  exact_mod_cast h

/-- The ceiling of the square root of a rational, computed without reals:
the least natural n with q le n^2.  This is the along-line sample count
int(np.ceil(np.hypot(dx, dy))) applied to the squared length. -/
def ceilSqrtQ (q : ℚ) : ℕ := Nat.find (exists_nat_sq_ge q)

/-- dx = x2 - x1 of the general path. -/
def dxq (p1 p2 : ℚ × ℚ) : ℚ := p2.1 - p1.1

/-- dy = y2 - y1 of the general path. -/
def dyq (p1 p2 : ℚ × ℚ) : ℚ := p2.2 - p1.2

/-- Squared Euclidean length of the scan line. -/
def hypotSq (p1 p2 : ℚ × ℚ) : ℚ := dxq p1 p2 ^ 2 + dyq p1 p2 ^ 2

/-- Slope a = dy / dx of the general path line equation. -/
def slopeA (p1 p2 : ℚ × ℚ) : ℚ := dyq p1 p2 / dxq p1 p2

/-- Intercept b = y1 - a * x1 of the general path line equation. -/
def interceptB (p1 p2 : ℚ × ℚ) : ℚ := p1.2 - slopeA p1 p2 * p1.1

/-- Along-line sample count of the general path:
int(np.ceil(np.hypot(dx, dy))). -/
def nSamples (p1 p2 : ℚ × ℚ) : ℕ := ceilSqrtQ (hypotSq p1 p2)

/-- Element r of line_x = np.linspace(min(x1, x2), max(x1, x2), ceil(length)):
start + r * (stop - start) / (num - 1), which also covers num = 1 because a
division by zero is the junk value 0 in this field. -/
def lineX (p1 p2 : ℚ × ℚ) (r : ℕ) : ℚ :=
  min p1.1 p2.1 + r * (max p1.1 p2.1 - min p1.1 p2.1) / ((nSamples p1 p2 : ℚ) - 1)

/-- Element r of line_y = line_x * a + b. -/
def lineY (p1 p2 : ℚ × ℚ) (r : ℕ) : ℚ :=
  slopeA p1 p2 * lineX p1 p2 r + interceptB p1 p2

/-- y_width = abs(linewidth * cos(theta) / 2) with theta = arctan2(dy, dx),
so cos(theta) = dx / hypot(dx, dy) exactly. -/
noncomputable def yWidth (p1 p2 : ℚ × ℚ) (lw : ℤ) : ℝ :=
  |(lw : ℝ) * (((dxq p1 p2 : ℚ) : ℝ) / Real.sqrt ((hypotSq p1 p2 : ℚ) : ℝ)) / 2|

/-- Element (r, c) of perp_ys: row r is
np.linspace(line_y[r] - y_width, line_y[r] + y_width, linewidth). -/
noncomputable def perpY (p1 p2 : ℚ × ℚ) (lw : ℤ) (r c : ℕ) : ℝ :=
  ((lineY p1 p2 r : ℚ) : ℝ) - yWidth p1 p2 lw
    + (c : ℝ) * (2 * yWidth p1 p2 lw) / ((lw.toNat : ℝ) - 1)

/-- Element (r, c) of perp_xs = -a * perp_ys + (line_x + a * line_y)[:, None]. -/
noncomputable def perpX (p1 p2 : ℚ × ℚ) (lw : ℤ) (r c : ℕ) : ℝ :=
  -((slopeA p1 p2 : ℚ) : ℝ) * perpY p1 p2 lw r c
    + (((lineX p1 p2 r : ℚ) : ℝ) + ((slopeA p1 p2 : ℚ) : ℝ) * ((lineY p1 p2 r : ℚ) : ℝ))

/-- Coordinate pair (y, x) handed to map_coordinates, in the axis order of
perp_lines = np.array([perp_ys, perp_xs]). -/
noncomputable def perpCoord (p1 p2 : ℚ × ℚ) (lw : ℤ) (r c : ℕ) : ℝ × ℝ :=
  (perpY p1 p2 lw r c, perpX p1 p2 lw r c)

/-- General path on a grayscale image: interpolate at every grid coordinate,
mean over axis 1 (the linewidth perpendicular samples), singleton channel
axis appended. -/
noncomputable def obliqueGray (interp : Interp) (pix : ℕ → ℕ → ℚ)
    (p1 p2 : ℚ × ℚ) (lw : ℤ) : List (List ℝ) :=
  (List.range (nSamples p1 p2)).map (fun r =>
    [rmean ((List.range lw.toNat).map (fun c => interp pix (perpCoord p1 p2 lw r c)))])

/-- Middle dimension of the preallocated 3-channel buffer
np.zeros((perp_lines.shape[1], y_width * 2 + 1, 3)): the float dimension is
truncated to an integer by old numpy. -/
noncomputable def midDim (p1 p2 : ℚ × ℚ) (lw : ℤ) : ℕ :=
  (⌊yWidth p1 p2 lw * 2 + 1⌋).toNat

/-- Mutable store of one profile_line call: the image argument and the
preallocated per-channel buffer of the 3-channel general path. -/
structure MemState where
  img : Image
  scratch : ℕ → ℕ → Fin 3 → ℝ

/-- Interpolated sample written into buffer cell (r, c) for one channel.
When linewidth equals the buffer middle dimension the columns are the
perpendicular samples; otherwise (the linewidth = 1 broadcast) the single
sample fills every column. -/
noncomputable def sampleVal (interp : Interp) (chpix : ℕ → ℕ → ℚ)
    (p1 p2 : ℚ × ℚ) (lw : ℤ) (r c : ℕ) : ℝ :=
  interp chpix (perpCoord p1 p2 lw r (if lw.toNat = midDim p1 p2 lw then c else 0))

/-- One iteration of the channel loop: the assignment
pixels[..., i] = map_coordinates(img[..., i], perp_lines), writing only the
buffer cells of channel i (never the image). -/
noncomputable def writeChannel (interp : Interp) (pix : ℕ → ℕ → Fin 3 → ℚ)
    (p1 p2 : ℚ × ℚ) (lw : ℤ) (s : MemState) (i : Fin 3) : MemState :=
  { s with scratch := fun r c j =>
      if j = i ∧ r < nSamples p1 p2 ∧ c < midDim p1 p2 lw
      then sampleVal interp (fun a b => pix a b i) p1 p2 lw r c
      else s.scratch r c j }

/-- Error message of the failing numpy buffer assignment. -/
def broadcastMsg : String := "could not broadcast interpolated samples into the preallocated buffer"

/-- General path on a 3-channel image.  The (nSamples, linewidth) sample
array of each channel is assigned into the (nSamples, midDim) buffer slice;
numpy broadcasting accepts that only when linewidth equals midDim or equals
one, and raises otherwise.  On success the profile reads the buffer back and
takes the mean over its middle axis. -/
noncomputable def obliqueRGB (interp : Interp) (pix : ℕ → ℕ → Fin 3 → ℚ)
    (p1 p2 : ℚ × ℚ) (lw : ℤ) (s : MemState) :
    Except String (List (List ℝ)) × MemState :=
  if lw.toNat = midDim p1 p2 lw ∨ lw.toNat = 1 then
    (.ok ((List.range (nSamples p1 p2)).map (fun r =>
        (List.finRange 3).map (fun i =>
          rmean ((List.range (midDim p1 p2 lw)).map (fun c =>
            ((List.finRange 3).foldl (writeChannel interp pix p1 p2 lw) s).scratch r c i))))),
      (List.finRange 3).foldl (writeChannel interp pix p1 p2 lw) s)
  else (.error broadcastMsg, s)

/-- The dispatch structure of profile_line: the vertical check x1 == x2
comes first, then the horizontal check y1 == y2, and only otherwise the
general path. -/
inductive ScanPath where
  | vertical : ScanPath
  | horizontal : ScanPath
  | general : ScanPath
deriving DecidableEq

/-- Which branch profile_line takes for the given endpoints. -/
def pathTaken (p1 p2 : ℚ × ℚ) : ScanPath :=
  if p1.1 = p2.1 then .vertical else if p1.2 = p2.2 then .horizontal else .general

/-- Cast a rational profile (fast paths) into the real-valued result type. -/
def q2r (l : List (List ℚ)) : List (List ℝ) := l.map (List.map (fun q : ℚ => (q : ℝ)))

/-- State-passing embedding of profile_line: the full dispatcher.  Every
branch returns the profile (or the numpy error) together with the final
store; only the 3-channel general path writes (into its own buffer). -/
noncomputable def profile_line_st (interp : Interp) (s : MemState)
    (p1 p2 : ℚ × ℚ) (lw : ℤ) : Except String (List (List ℝ)) × MemState :=
  match pathTaken p1 p2, s.img with
  | .vertical, .gray g => (.ok (q2r (verticalGray g p1 p2 lw)), s)
  | .vertical, .rgb g => (.ok (q2r (verticalRGB g p1 p2 lw)), s)
  | .horizontal, .gray g => (.ok (q2r (horizontalGray g p1 p2 lw)), s)
  | .horizontal, .rgb g => (.ok (q2r (horizontalRGB g p1 p2 lw)), s)
  | .general, .gray g => (.ok (obliqueGray interp g.pix p1 p2 lw), s)
  | .general, .rgb g => obliqueRGB interp g.pix p1 p2 lw s

/-- profile_line(img, (point1, point2), linewidth): the returned profile of
the state-passing embedding, started on a fresh zero buffer as allocated by
np.zeros. -/
noncomputable def profile_line (interp : Interp) (img : Image)
    (p1 p2 : ℚ × ℚ) (lw : ℤ) : Except String (List (List ℝ)) :=
  (profile_line_st interp ⟨img, fun _ _ _ => 0⟩ p1 p2 lw).1

lemma pathTaken_vertical {p1 p2 : ℚ × ℚ} (hx : p1.1 = p2.1) :
    pathTaken p1 p2 = ScanPath.vertical := by
  unfold pathTaken
  rw [if_pos hx]

lemma pathTaken_horizontal {p1 p2 : ℚ × ℚ} (hx : ¬ p1.1 = p2.1) (hy : p1.2 = p2.2) :
    pathTaken p1 p2 = ScanPath.horizontal := by
  unfold pathTaken
  rw [if_neg hx, if_pos hy]

lemma pathTaken_general {p1 p2 : ℚ × ℚ} (hx : ¬ p1.1 = p2.1) (hy : ¬ p1.2 = p2.2) :
    pathTaken p1 p2 = ScanPath.general := by
  unfold pathTaken
  rw [if_neg hx, if_neg hy]

lemma profile_line_vert_gray (interp : Interp) (g : GrayImage) (p1 p2 : ℚ × ℚ) (lw : ℤ)
    (hx : p1.1 = p2.1) :
    profile_line interp (.gray g) p1 p2 lw = .ok (q2r (verticalGray g p1 p2 lw)) := by
  unfold profile_line profile_line_st
  rw [pathTaken_vertical hx]

lemma profile_line_vert_rgb (interp : Interp) (g : RGBImage) (p1 p2 : ℚ × ℚ) (lw : ℤ)
    (hx : p1.1 = p2.1) :
    profile_line interp (.rgb g) p1 p2 lw = .ok (q2r (verticalRGB g p1 p2 lw)) := by
  unfold profile_line profile_line_st
  rw [pathTaken_vertical hx]

lemma profile_line_horiz_gray (interp : Interp) (g : GrayImage) (p1 p2 : ℚ × ℚ) (lw : ℤ)
    (hx : ¬ p1.1 = p2.1) (hy : p1.2 = p2.2) :
    profile_line interp (.gray g) p1 p2 lw = .ok (q2r (horizontalGray g p1 p2 lw)) := by
  unfold profile_line profile_line_st
  rw [pathTaken_horizontal hx hy]

lemma profile_line_horiz_rgb (interp : Interp) (g : RGBImage) (p1 p2 : ℚ × ℚ) (lw : ℤ)
    (hx : ¬ p1.1 = p2.1) (hy : p1.2 = p2.2) :
    profile_line interp (.rgb g) p1 p2 lw = .ok (q2r (horizontalRGB g p1 p2 lw)) := by
  unfold profile_line profile_line_st
  rw [pathTaken_horizontal hx hy]

lemma profile_line_obl_gray (interp : Interp) (g : GrayImage) (p1 p2 : ℚ × ℚ) (lw : ℤ)
    (hx : ¬ p1.1 = p2.1) (hy : ¬ p1.2 = p2.2) :
    profile_line interp (.gray g) p1 p2 lw = .ok (obliqueGray interp g.pix p1 p2 lw) := by
  unfold profile_line profile_line_st
  rw [pathTaken_general hx hy]

lemma profile_line_obl_rgb (interp : Interp) (g : RGBImage) (p1 p2 : ℚ × ℚ) (lw : ℤ)
    (hx : ¬ p1.1 = p2.1) (hy : ¬ p1.2 = p2.2) :
    profile_line interp (.rgb g) p1 p2 lw
      = (obliqueRGB interp g.pix p1 p2 lw ⟨.rgb g, fun _ _ _ => 0⟩).1 := by
  unfold profile_line profile_line_st
  rw [pathTaken_general hx hy]

/-- C9: the general path of profile_line is reachable only when dx is not
zero, because the vertical fast path test x1 == x2 is checked first; hence
the slope division a = dy / dx of the general path is never a division by
zero, and indeed a * dx recovers dy there. -/
theorem claim_C9_general_path_dx_ne_zero (p1 p2 : ℚ × ℚ)
    (h : pathTaken p1 p2 = ScanPath.general) :
    dxq p1 p2 ≠ 0 ∧ slopeA p1 p2 * dxq p1 p2 = dyq p1 p2 := by
  have hx : ¬ p1.1 = p2.1 := by
    intro hx
    rw [pathTaken_vertical hx] at h
    exact absurd h (by simp)
  have hdx : dxq p1 p2 ≠ 0 := by
    intro hc
    exact hx (sub_eq_zero.mp hc).symm
  exact ⟨hdx, div_mul_cancel₀ _ hdx⟩

/-- Witness for C9 at the concrete oblique endpoints (0,0), (1,5). -/
theorem claim_C9_witness :
    pathTaken ((0 : ℚ), (0 : ℚ)) ((1 : ℚ), (5 : ℚ)) = ScanPath.general ∧
      (dxq ((0 : ℚ), (0 : ℚ)) ((1 : ℚ), (5 : ℚ)) ≠ 0 ∧
        slopeA ((0 : ℚ), (0 : ℚ)) ((1 : ℚ), (5 : ℚ))
          * dxq ((0 : ℚ), (0 : ℚ)) ((1 : ℚ), (5 : ℚ))
          = dyq ((0 : ℚ), (0 : ℚ)) ((1 : ℚ), (5 : ℚ))) :=
  ⟨by norm_num [pathTaken],
   claim_C9_general_path_dx_ne_zero _ _ (by norm_num [pathTaken])⟩

lemma writeChannel_img (interp : Interp) (pix : ℕ → ℕ → Fin 3 → ℚ)
    (p1 p2 : ℚ × ℚ) (lw : ℤ) (s : MemState) (i : Fin 3) :
    (writeChannel interp pix p1 p2 lw s i).img = s.img := rfl

lemma foldl_writeChannel_img (interp : Interp) (pix : ℕ → ℕ → Fin 3 → ℚ)
    (p1 p2 : ℚ × ℚ) (lw : ℤ) :
    ∀ (l : List (Fin 3)) (s : MemState),
      (l.foldl (writeChannel interp pix p1 p2 lw) s).img = s.img
  | [], _ => rfl
  | (a :: t), s => by
    rw [List.foldl_cons, foldl_writeChannel_img interp pix p1 p2 lw t _]
    rfl

/-- C8: profile_line never mutates its image argument: on every branch,
for every store, endpoints and linewidth, the image component of the store
after the call equals the one before; the only writes performed (the
3-channel general path channel loop) target the preallocated buffer. -/
theorem claim_C8_image_unchanged (interp : Interp) (s : MemState)
    (p1 p2 : ℚ × ℚ) (lw : ℤ) :
    ((profile_line_st interp s p1 p2 lw).2).img = s.img := by
  rcases s with ⟨img, scr⟩
  unfold profile_line_st
  cases hp : pathTaken p1 p2 <;> cases img <;>
    simp only [] <;>
    try rfl
  · -- general path, 3-channel image: only the buffer is written
    unfold obliqueRGB
    split_ifs
    · exact foldl_writeChannel_img _ _ _ _ _ _ _
    · rfl

lemma ratTrunc_floor {q : ℚ} (h : 0 ≤ q) : ratTrunc q = ⌊q⌋ := by
  unfold ratTrunc
  rw [if_neg (not_lt.mpr h)]

/-- Interpolator instance returning zero everywhere; fast-path claims do not
depend on the interpolated values. -/
def interp0 : Interp := fun _ _ => 0

/-- A 10 by 10 grayscale image with every pixel equal to 5. -/
def gray5 : GrayImage := ⟨10, 10, fun _ _ => 5⟩

/-- A 10 by 10 grayscale image whose pixel value is its column index. -/
def rampCol : GrayImage := ⟨10, 10, fun _ c => (c : ℚ)⟩

/-- C3 amended: profile_line performs no linewidth validation: with
linewidth ≤ 0 on an axis-aligned line it still returns a profile computed
from the (degenerate or empty) slice window instead of failing with an
explicit error. -/
theorem claim_C3_nonpositive_width_silent (interp : Interp) (img : Image)
    (p1 p2 : ℚ × ℚ) (lw : ℤ) (hlw : lw ≤ 0)
    (haxis : p1.1 = p2.1 ∨ p1.2 = p2.2) :
    ∃ prof, profile_line interp img p1 p2 lw = .ok prof := by
  by_cases hx : p1.1 = p2.1
  · cases img with
    | gray g => exact ⟨_, profile_line_vert_gray interp g p1 p2 lw hx⟩
    | rgb g => exact ⟨_, profile_line_vert_rgb interp g p1 p2 lw hx⟩
  · have hy : p1.2 = p2.2 := haxis.resolve_left hx
    cases img with
    | gray g => exact ⟨_, profile_line_horiz_gray interp g p1 p2 lw hx hy⟩
    | rgb g => exact ⟨_, profile_line_horiz_rgb interp g p1 p2 lw hx hy⟩

/-- Witness for the amended C3 at a concrete vertical line with
linewidth 0. -/
theorem claim_C3_witness :
    (0 : ℤ) ≤ 0 ∧
      (((3 : ℚ), (1 : ℚ)).1 = ((3 : ℚ), (6 : ℚ)).1 ∨
        ((3 : ℚ), (1 : ℚ)).2 = ((3 : ℚ), (6 : ℚ)).2) ∧
      ∃ prof,
        profile_line interp0 (.gray gray5) ((3 : ℚ), 1) ((3 : ℚ), 6) 0 = .ok prof :=
  ⟨le_refl 0, Or.inl rfl,
    claim_C3_nonpositive_width_silent interp0 (.gray gray5) _ _ 0 (le_refl 0)
      (Or.inl rfl)⟩

/-- C3 counterexample: at a concrete vertical line with linewidth 0 the call
does not fail: it silently returns the full six-point profile of the single
column under the window, refuting that linewidth ≤ 0 raises an explicit
error. -/
theorem claim_C3_counterexample :
    profile_line interp0 (.gray gray5) ((2 : ℚ), 1) ((2 : ℚ), 6) 0
      = .ok (List.replicate 6 [(5 : ℝ)]) := by
  rw [profile_line_vert_gray interp0 gray5 ((2 : ℚ), 1) ((2 : ℚ), 6) 0 rfl]
  have hrows : vertRows gray5.h ((2 : ℚ), 1) ((2 : ℚ), 6) = [1, 2, 3, 4, 5, 6] := by
    show sliceIdx 10 (ratTrunc (min (1 : ℚ) 6)) (ratTrunc (max (1 : ℚ) 6 + 1)) = _
    rw [show ratTrunc (min (1 : ℚ) 6) = 1 from by
          simp only [ratTrunc, min_def, max_def]; norm_num,
        show ratTrunc (max (1 : ℚ) 6 + 1) = 7 from by
          simp only [ratTrunc, min_def, max_def]; norm_num]
    decide
  have hcols : vertCols gray5.w ((2 : ℚ), (1 : ℚ)).1 0 = [2] := by
    show sliceIdx 10 (ratTrunc ((2 : ℚ) - (halfw 0 : ℚ)))
        (ratTrunc ((2 : ℚ) + (halfw 0 : ℚ) + 1)) = _
    rw [show (halfw 0 : ℤ) = 0 from by decide]
    rw [show ratTrunc ((2 : ℚ) - ((0 : ℤ) : ℚ)) = 2 from by
          simp only [ratTrunc]; norm_num,
        show ratTrunc ((2 : ℚ) + ((0 : ℤ) : ℚ) + 1) = 3 from by
          simp only [ratTrunc]; norm_num]
    decide
  unfold verticalGray
  rw [hrows, hcols]
  simp only [gray5, q2r, qmean, List.map_cons, List.map_nil, List.sum_cons,
    List.sum_nil, List.length_cons, List.length_nil, List.replicate_succ,
    List.replicate_zero]
  norm_num

/-- C4 amended: identical endpoints are not rejected: profile_line takes the
vertical fast path (the test x1 == x2 holds trivially) and silently returns
a single-point profile over the one-row band at y1, with no division by
zero, instead of failing with an explicit error. -/
theorem claim_C4_identical_endpoints_silent (interp : Interp) (img : Image)
    (p : ℚ × ℚ) (lw : ℤ) (h0 : 0 ≤ p.2)
    (hh : (ratTrunc p.2).toNat < Image.height img) :
    ∃ prof, profile_line interp img p p lw = .ok prof ∧ prof.length = 1 := by
  have key : ∀ hgt : ℕ, (ratTrunc p.2).toNat < hgt → (vertRows hgt p p).length = 1 := by
    intro hgt hlt
    unfold vertRows
    rw [min_self, max_self]
    have hf : ratTrunc p.2 = ⌊p.2⌋ := ratTrunc_floor h0
    have hf1 : ratTrunc (p.2 + 1) = ⌊p.2⌋ + 1 := by
      rw [ratTrunc_floor (by linarith), Int.floor_add_one]
    rw [hf] at hlt
    unfold sliceIdx normIdx
    rw [hf, hf1, List.length_range']
    have h0' : (0 : ℤ) ≤ ⌊p.2⌋ := Int.floor_nonneg.mpr h0
    rw [if_neg (not_lt.mpr h0'), if_neg (not_lt.mpr (by linarith : (0 : ℤ) ≤ ⌊p.2⌋ + 1))]
    rw [Int.toNat_add h0' (by norm_num)]
    rw [min_eq_left (le_of_lt hlt), min_eq_left (by omega : ⌊p.2⌋.toNat + (1 : ℤ).toNat ≤ hgt)]
    omega
  cases img with
  | gray g =>
      refine ⟨_, profile_line_vert_gray interp g p p lw rfl, ?_⟩
      unfold q2r verticalGray
      rw [List.length_map, List.length_map]
      exact key g.h hh
  | rgb g =>
      refine ⟨_, profile_line_vert_rgb interp g p p lw rfl, ?_⟩
      unfold q2r verticalRGB
      rw [List.length_map, List.length_map]
      exact key g.h hh

/-- Witness for the amended C4 at the concrete point (3, 4) inside the 10 by
10 image. -/
theorem claim_C4_witness :
    (0 : ℚ) ≤ ((3 : ℚ), (4 : ℚ)).2 ∧
      (ratTrunc ((3 : ℚ), (4 : ℚ)).2).toNat < Image.height (.gray gray5) ∧
      ∃ prof,
        profile_line interp0 (.gray gray5) ((3 : ℚ), 4) ((3 : ℚ), 4) 1 = .ok prof ∧
          prof.length = 1 := by
  have hh : (ratTrunc ((3 : ℚ), (4 : ℚ)).2).toNat < Image.height (.gray gray5) := by
    rw [show ratTrunc ((3 : ℚ), (4 : ℚ)).2 = 4 from by simp only [ratTrunc]; norm_num]
    show (4 : ℤ).toNat < 10
    decide
  exact ⟨by norm_num, hh,
    claim_C4_identical_endpoints_silent interp0 (.gray gray5) ((3 : ℚ), 4) 1
      (by norm_num) hh⟩

/-- C4 counterexample: at the concrete identical endpoints (3, 4) the call
does not fail: it silently returns the single-point profile [[5]], refuting
that identical endpoints raise an explicit error. -/
theorem claim_C4_counterexample :
    profile_line interp0 (.gray gray5) ((3 : ℚ), 4) ((3 : ℚ), 4) 1
      = .ok [[(5 : ℝ)]] := by
  rw [profile_line_vert_gray interp0 gray5 ((3 : ℚ), 4) ((3 : ℚ), 4) 1 rfl]
  have hrows : vertRows gray5.h ((3 : ℚ), 4) ((3 : ℚ), 4) = [4] := by
    show sliceIdx 10 (ratTrunc (min (4 : ℚ) 4)) (ratTrunc (max (4 : ℚ) 4 + 1)) = _
    rw [show ratTrunc (min (4 : ℚ) 4) = 4 from by
          simp only [ratTrunc, min_def, max_def]; norm_num,
        show ratTrunc (max (4 : ℚ) 4 + 1) = 5 from by
          simp only [ratTrunc, min_def, max_def]; norm_num]
    decide
  have hcols : vertCols gray5.w ((3 : ℚ), (4 : ℚ)).1 1 = [3] := by
    show sliceIdx 10 (ratTrunc ((3 : ℚ) - (halfw 1 : ℚ)))
        (ratTrunc ((3 : ℚ) + (halfw 1 : ℚ) + 1)) = _
    rw [show (halfw 1 : ℤ) = 0 from by decide]
    rw [show ratTrunc ((3 : ℚ) - ((0 : ℤ) : ℚ)) = 3 from by
          simp only [ratTrunc]; norm_num,
        show ratTrunc ((3 : ℚ) + ((0 : ℤ) : ℚ) + 1) = 4 from by
          simp only [ratTrunc]; norm_num]
    decide
  unfold verticalGray
  rw [hrows, hcols]
  simp only [gray5, q2r, qmean, List.map_cons, List.map_nil, List.sum_cons,
    List.sum_nil, List.length_cons, List.length_nil]
  norm_num

/-- C5: evaluating the code on the spec scenario: 10 by 10 constant image of
value 5, horizontal endpoints (1,5) and (8,5), linewidth 1.  The horizontal
grayscale fast path averages over axis 1, the along-line span, so the whole
1 by 8 band collapses to the single profile value [[5]] of length 1 instead
of the claimed length-8 profile. -/
theorem claim_C5_constant_horizontal_eval :
    profile_line interp0 (.gray gray5) ((1 : ℚ), 5) ((8 : ℚ), 5) 1
      = .ok [[(5 : ℝ)]] := by
  rw [profile_line_horiz_gray interp0 gray5 ((1 : ℚ), 5) ((8 : ℚ), 5) 1 (by norm_num) rfl]
  have hrows : horizRows gray5.h ((1 : ℚ), (5 : ℚ)).2 1 = [5] := by
    show sliceIdx 10 (ratTrunc ((5 : ℚ) - (halfw 1 : ℚ)))
        (ratTrunc ((5 : ℚ) + (halfw 1 : ℚ) + 1)) = _
    rw [show (halfw 1 : ℤ) = 0 from by decide]
    rw [show ratTrunc ((5 : ℚ) - ((0 : ℤ) : ℚ)) = 5 from by
          simp only [ratTrunc]; norm_num,
        show ratTrunc ((5 : ℚ) + ((0 : ℤ) : ℚ) + 1) = 6 from by
          simp only [ratTrunc]; norm_num]
    decide
  have hcols : horizCols gray5.w ((1 : ℚ), 5) ((8 : ℚ), 5) = [1, 2, 3, 4, 5, 6, 7, 8] := by
    show sliceIdx 10 (ratTrunc (min (1 : ℚ) 8)) (ratTrunc (max (1 : ℚ) 8 + 1)) = _
    rw [show ratTrunc (min (1 : ℚ) 8) = 1 from by
          simp only [ratTrunc, min_def, max_def]; norm_num,
        show ratTrunc (max (1 : ℚ) 8 + 1) = 9 from by
          simp only [ratTrunc, min_def, max_def]; norm_num]
    decide
  unfold horizontalGray
  rw [hrows, hcols]
  simp only [gray5, q2r, qmean, List.map_cons, List.map_nil, List.sum_cons,
    List.sum_nil, List.length_cons, List.length_nil]
  norm_num

/-- C6: evaluating the code at a concrete in-bounds horizontal line: column
ramp image, endpoints (0,3) and (7,3), linewidth 1.  The claimed length is
the span 7 + 1 = 8, but the horizontal grayscale fast path averages over
axis 1 and returns the single value [[7/2]], the mean of columns 0..7. -/
theorem claim_C6_horizontal_length_bug_eval :
    profile_line interp0 (.gray rampCol) ((0 : ℚ), 3) ((7 : ℚ), 3) 1
      = .ok [[(7 : ℝ) / 2]] := by
  rw [profile_line_horiz_gray interp0 rampCol ((0 : ℚ), 3) ((7 : ℚ), 3) 1 (by norm_num) rfl]
  have hrows : horizRows rampCol.h ((0 : ℚ), (3 : ℚ)).2 1 = [3] := by
    show sliceIdx 10 (ratTrunc ((3 : ℚ) - (halfw 1 : ℚ)))
        (ratTrunc ((3 : ℚ) + (halfw 1 : ℚ) + 1)) = _
    rw [show (halfw 1 : ℤ) = 0 from by decide]
    rw [show ratTrunc ((3 : ℚ) - ((0 : ℤ) : ℚ)) = 3 from by
          simp only [ratTrunc]; norm_num,
        show ratTrunc ((3 : ℚ) + ((0 : ℤ) : ℚ) + 1) = 4 from by
          simp only [ratTrunc]; norm_num]
    decide
  have hcols : horizCols rampCol.w ((0 : ℚ), 3) ((7 : ℚ), 3) = [0, 1, 2, 3, 4, 5, 6, 7] := by
    show sliceIdx 10 (ratTrunc (min (0 : ℚ) 7)) (ratTrunc (max (0 : ℚ) 7 + 1)) = _
    rw [show ratTrunc (min (0 : ℚ) 7) = 0 from by
          simp only [ratTrunc, min_def, max_def]; norm_num,
        show ratTrunc (max (0 : ℚ) 7 + 1) = 8 from by
          simp only [ratTrunc, min_def, max_def]; norm_num]
    decide
  unfold horizontalGray
  rw [hrows, hcols]
  simp only [rampCol, q2r, qmean, List.map_cons, List.map_nil, List.sum_cons,
    List.sum_nil, List.length_cons, List.length_nil]
  norm_num

lemma ceilSqrtQ_eq (q : ℚ) : ceilSqrtQ q = ⌈Real.sqrt (q : ℝ)⌉₊ := by
  unfold ceilSqrtQ
  refine le_antisymm (Nat.find_le ?_) ?_
  · by_cases hq : 0 ≤ q
    · have h1 : Real.sqrt (q : ℝ) ≤ (⌈Real.sqrt (q : ℝ)⌉₊ : ℝ) := Nat.le_ceil _
      have h2 : (q : ℝ) ≤ ((⌈Real.sqrt (q : ℝ)⌉₊ : ℕ) : ℝ) ^ 2 := by
        have hs : (q : ℝ) = Real.sqrt (q : ℝ) ^ 2 := (Real.sq_sqrt (by exact_mod_cast hq)).symm
        nth_rewrite 1 [hs]
        exact pow_le_pow_left₀ (Real.sqrt_nonneg _) h1 2
      exact_mod_cast h2
    · push_neg at hq
      exact le_trans hq.le (by positivity)
  · apply Nat.ceil_le.mpr
    have hs : q ≤ ((Nat.find (exists_nat_sq_ge q) : ℕ) : ℚ) ^ 2 :=
      Nat.find_spec (exists_nat_sq_ge q)
    have hsR : (q : ℝ) ≤ ((Nat.find (exists_nat_sq_ge q) : ℕ) : ℝ) ^ 2 := by
      exact_mod_cast hs
    calc Real.sqrt (q : ℝ)
        ≤ Real.sqrt (((Nat.find (exists_nat_sq_ge q) : ℕ) : ℝ) ^ 2) :=
          Real.sqrt_le_sqrt hsR
      _ = _ := Real.sqrt_sq (by positivity)

lemma obliqueGray_length (interp : Interp) (pix : ℕ → ℕ → ℚ) (p1 p2 : ℚ × ℚ) (lw : ℤ) :
    (obliqueGray interp pix p1 p2 lw).length = nSamples p1 p2 := by
  unfold obliqueGray
  rw [List.length_map, List.length_range]

/-- C1: whenever profile_line returns a profile for an oblique line
(x1 different from x2 and y1 different from y2), the profile length equals
the ceiling of the Euclidean length hypot(dx, dy) of the scan line. -/
theorem claim_C1_oblique_profile_length (interp : Interp) (img : Image)
    (p1 p2 : ℚ × ℚ) (lw : ℤ) (prof : List (List ℝ))
    (hok : profile_line interp img p1 p2 lw = .ok prof)
    (hx : ¬ p1.1 = p2.1) (hy : ¬ p1.2 = p2.2) :
    prof.length
      = ⌈Real.sqrt (((p2.1 - p1.1 : ℚ) : ℝ) ^ 2 + ((p2.2 - p1.2 : ℚ) : ℝ) ^ 2)⌉₊ := by
  have hkey : nSamples p1 p2
      = ⌈Real.sqrt (((p2.1 - p1.1 : ℚ) : ℝ) ^ 2 + ((p2.2 - p1.2 : ℚ) : ℝ) ^ 2)⌉₊ := by
    unfold nSamples
    rw [ceilSqrtQ_eq]
    congr 1
    unfold hypotSq dxq dyq
    push_cast
    ring
  cases img with
  | gray g =>
      rw [profile_line_obl_gray interp g p1 p2 lw hx hy] at hok
      injection hok with h
      rw [← h, obliqueGray_length, hkey]
  | rgb g =>
      rw [profile_line_obl_rgb interp g p1 p2 lw hx hy] at hok
      unfold obliqueRGB at hok
      split_ifs at hok
      injection hok with h
      rw [← h, List.length_map, List.length_range, hkey]

/-- A one-pixel grayscale image of value zero, for concrete oblique
witnesses. -/
def grayZero : GrayImage := ⟨1, 1, fun _ _ => 0⟩

lemma nSamples_0043 : nSamples ((0 : ℚ), 0) ((4 : ℚ), 3) = 5 := by
  unfold nSamples
  rw [show hypotSq ((0 : ℚ), 0) ((4 : ℚ), 3) = 25 from by
        unfold hypotSq dxq dyq; norm_num]
  unfold ceilSqrtQ
  rw [Nat.find_eq_iff]
  constructor
  · norm_num
  · intro n hn
    rw [not_le]
    have hn4 : (n : ℚ) ≤ 4 := by exact_mod_cast Nat.lt_succ_iff.mp hn
    have hn0 : (0 : ℚ) ≤ (n : ℚ) := by positivity
    nlinarith

lemma eval_oblique_zero :
    profile_line interp0 (.gray grayZero) ((0 : ℚ), 0) ((4 : ℚ), 3) 1
      = .ok (List.replicate 5 [(0 : ℝ)]) := by
  rw [profile_line_obl_gray interp0 grayZero ((0 : ℚ), 0) ((4 : ℚ), 3) 1
    (by norm_num) (by norm_num)]
  unfold obliqueGray
  rw [nSamples_0043]
  rw [show List.range (1 : ℤ).toNat = [0] from by decide]
  simp only [interp0, List.map_cons, List.map_nil]
  simp only [show rmean [(0 : ℝ)] = 0 from by simp [rmean]]
  rw [show List.range 5 = [0, 1, 2, 3, 4] from by decide]
  rfl

/-- Witness for C1 at the concrete oblique endpoints (0,0), (4,3) of exact
length 5 on a zero image. -/
theorem claim_C1_witness :
    profile_line interp0 (.gray grayZero) ((0 : ℚ), 0) ((4 : ℚ), 3) 1
        = .ok (List.replicate 5 [(0 : ℝ)]) ∧
      ¬ ((0 : ℚ), (0 : ℚ)).1 = ((4 : ℚ), (3 : ℚ)).1 ∧
      ¬ ((0 : ℚ), (0 : ℚ)).2 = ((4 : ℚ), (3 : ℚ)).2 ∧
      (List.replicate 5 [(0 : ℝ)]).length
        = ⌈Real.sqrt (((4 - 0 : ℚ) : ℝ) ^ 2 + ((3 - 0 : ℚ) : ℝ) ^ 2)⌉₊ :=
  ⟨eval_oblique_zero, by norm_num, by norm_num,
    claim_C1_oblique_profile_length interp0 (.gray grayZero) ((0 : ℚ), 0) ((4 : ℚ), 3) 1 _
      eval_oblique_zero (by norm_num) (by norm_num)⟩

/-- A 10 by 10 3-channel image of value zero everywhere. -/
def rgbZero : RGBImage := ⟨10, 10, fun _ _ _ => 0⟩

lemma sqrt26_gt_two : (2 : ℝ) < Real.sqrt 26 :=
  (Real.lt_sqrt (by norm_num : (0 : ℝ) ≤ 2)).mpr (by norm_num)

lemma yWidth_0015 : yWidth ((0 : ℚ), 0) ((1 : ℚ), 5) 2 = 1 / Real.sqrt 26 := by
  unfold yWidth
  rw [show hypotSq ((0 : ℚ), 0) ((1 : ℚ), 5) = 26 from by
        unfold hypotSq dxq dyq; norm_num,
      show dxq ((0 : ℚ), 0) ((1 : ℚ), 5) = 1 from by unfold dxq; norm_num]
  rw [show ((26 : ℚ) : ℝ) = 26 from by norm_num,
      show ((1 : ℚ) : ℝ) = 1 from by norm_num]
  have hpos : (0 : ℝ) < Real.sqrt 26 := Real.sqrt_pos.mpr (by norm_num)
  rw [show ((2 : ℤ) : ℝ) * (1 / Real.sqrt 26) / 2 = 1 / Real.sqrt 26 from by
        push_cast; ring]
  exact abs_of_nonneg (by positivity)

lemma midDim_0015 : midDim ((0 : ℚ), 0) ((1 : ℚ), 5) 2 = 1 := by
  unfold midDim
  rw [yWidth_0015]
  have hpos : (0 : ℝ) < Real.sqrt 26 := Real.sqrt_pos.mpr (by norm_num)
  have hnn : (0 : ℝ) ≤ 1 / Real.sqrt 26 := by positivity
  have hlt : 1 / Real.sqrt 26 * 2 < 1 := by
    rw [div_mul_eq_mul_div, one_mul, div_lt_one hpos]
    exact sqrt26_gt_two
  have hfloor : ⌊(1 / Real.sqrt 26 : ℝ) * 2 + 1⌋ = 1 := by
    rw [Int.floor_eq_iff]
    constructor
    · push_cast
      nlinarith
    · push_cast
      linarith
  rw [hfloor]
  rfl

/-- C10: on a valid 3-channel image, oblique endpoints (0,0), (1,5) and the
positive linewidth 2, profile_line fails instead of returning a profile: the
preallocated buffer middle dimension int(y_width * 2 + 1) evaluates to 1,
and the (nSamples, 2)-shaped interpolated sample array can not broadcast
into it. -/
theorem claim_C10_rgb_oblique_broadcast_failure :
    profile_line interp0 (.rgb rgbZero) ((0 : ℚ), 0) ((1 : ℚ), 5) 2
        = .error broadcastMsg ∧
      midDim ((0 : ℚ), 0) ((1 : ℚ), 5) 2 = 1 := by
  refine ⟨?_, midDim_0015⟩
  rw [profile_line_obl_rgb interp0 rgbZero ((0 : ℚ), 0) ((1 : ℚ), 5) 2
    (by norm_num) (by norm_num)]
  unfold obliqueRGB
  rw [if_neg (by rw [midDim_0015]; decide :
    ¬ ((2 : ℤ).toNat = midDim ((0 : ℚ), 0) ((1 : ℚ), 5) 2 ∨ (2 : ℤ).toNat = 1))]

lemma qmean_map_const {α : Type} (l : List α) (v : ℚ) (h : l ≠ []) :
    qmean (l.map (fun _ => v)) = v := by
  unfold qmean
  rw [show (l.map fun _ => v) = List.replicate l.length v from by
        clear h
        induction l with
        | nil => rfl
        | cons a t ih => simp [ih, List.replicate_succ]]
  rw [List.sum_replicate, List.length_replicate, nsmul_eq_mul]
  have hn : (l.length : ℚ) ≠ 0 :=
    Nat.cast_ne_zero.mpr (fun hl => h (List.length_eq_zero.mp hl))
  field_simp

/-- C7: on a 3-channel image whose channels are the constants 1, 2 and 3,
any vertical line (x1 == x2, y1 different from y2) with a nonempty sampling
window produces a profile every row of which is exactly [1, 2, 3]. -/
theorem claim_C7_vertical_rgb_channels (interp : Interp) (g : RGBImage)
    (p1 p2 : ℚ × ℚ) (lw : ℤ)
    (hpix : ∀ r c (i : Fin 3), g.pix r c i = (i.val : ℚ) + 1)
    (hx : p1.1 = p2.1) (hy : ¬ p1.2 = p2.2)
    (hcols : vertCols g.w p1.1 lw ≠ []) :
    ∃ prof, profile_line interp (.rgb g) p1 p2 lw = .ok prof ∧
      ∀ row ∈ prof, row = [(1 : ℝ), 2, 3] := by
  refine ⟨_, profile_line_vert_rgb interp g p1 p2 lw hx, ?_⟩
  intro row hrow
  unfold q2r verticalRGB at hrow
  rw [List.map_map] at hrow
  rcases List.mem_map.mp hrow with ⟨r, _, hmap⟩
  rw [← hmap]
  have hin : ∀ i : Fin 3,
      qmean ((vertCols g.w p1.1 lw).map (fun c => g.pix r c i)) = (i.val : ℚ) + 1 := by
    intro i
    rw [show (fun c => g.pix r c i) = (fun _ : ℕ => (i.val : ℚ) + 1) from
          funext fun c => hpix r c i]
    exact qmean_map_const _ _ hcols
  simp only [Function.comp_apply]
  rw [show (List.finRange 3) = [0, 1, 2] from by decide]
  simp only [List.map_cons, List.map_nil, hin]
  norm_num

/-- The 10 by 10 3-channel image with channel values 1, 2, 3. -/
def rgb123 : RGBImage := ⟨10, 10, fun _ _ i => (i.val : ℚ) + 1⟩

lemma rgb123_cols_ne : vertCols rgb123.w ((5 : ℚ), (0 : ℚ)).1 1 ≠ [] := by
  show sliceIdx 10 (ratTrunc ((5 : ℚ) - (halfw 1 : ℚ)))
      (ratTrunc ((5 : ℚ) + (halfw 1 : ℚ) + 1)) ≠ []
  rw [show (halfw 1 : ℤ) = 0 from by decide]
  rw [show ratTrunc ((5 : ℚ) - ((0 : ℤ) : ℚ)) = 5 from by
        simp only [ratTrunc]; norm_num,
      show ratTrunc ((5 : ℚ) + ((0 : ℤ) : ℚ) + 1) = 6 from by
        simp only [ratTrunc]; norm_num]
  decide

/-- Witness for C7 at the concrete vertical line (5,0) to (5,7) on the
constant-channel image. -/
theorem claim_C7_witness :
    (∀ r c (i : Fin 3), rgb123.pix r c i = (i.val : ℚ) + 1) ∧
      ((5 : ℚ), (0 : ℚ)).1 = ((5 : ℚ), (7 : ℚ)).1 ∧
      ¬ ((5 : ℚ), (0 : ℚ)).2 = ((5 : ℚ), (7 : ℚ)).2 ∧
      vertCols rgb123.w ((5 : ℚ), (0 : ℚ)).1 1 ≠ [] ∧
      ∃ prof,
        profile_line interp0 (.rgb rgb123) ((5 : ℚ), 0) ((5 : ℚ), 7) 1 = .ok prof ∧
          ∀ row ∈ prof, row = [(1 : ℝ), 2, 3] :=
  ⟨fun _ _ _ => rfl, rfl, by norm_num, rgb123_cols_ne,
    claim_C7_vertical_rgb_channels interp0 rgb123 ((5 : ℚ), 0) ((5 : ℚ), 7) 1
      (fun _ _ _ => rfl) rfl (by norm_num) rgb123_cols_ne⟩

lemma dxq_swap (p1 p2 : ℚ × ℚ) : dxq p2 p1 = -dxq p1 p2 := by
  unfold dxq
  ring

lemma dyq_swap (p1 p2 : ℚ × ℚ) : dyq p2 p1 = -dyq p1 p2 := by
  unfold dyq
  ring

lemma hypotSq_swap (p1 p2 : ℚ × ℚ) : hypotSq p2 p1 = hypotSq p1 p2 := by
  unfold hypotSq dxq dyq
  ring

lemma nSamples_swap (p1 p2 : ℚ × ℚ) : nSamples p2 p1 = nSamples p1 p2 := by
  unfold nSamples
  rw [hypotSq_swap]

lemma slopeA_swap (p1 p2 : ℚ × ℚ) : slopeA p2 p1 = slopeA p1 p2 := by
  unfold slopeA
  rw [dxq_swap p1 p2, dyq_swap p1 p2, neg_div_neg_eq]

lemma dxq_ne_zero {p1 p2 : ℚ × ℚ} (hx : ¬ p1.1 = p2.1) : dxq p1 p2 ≠ 0 :=
  fun hc => hx (sub_eq_zero.mp hc).symm

lemma interceptB_swap (p1 p2 : ℚ × ℚ) (hx : ¬ p1.1 = p2.1) :
    interceptB p2 p1 = interceptB p1 p2 := by
  unfold interceptB
  rw [slopeA_swap p1 p2]
  have hmul : slopeA p1 p2 * dxq p1 p2 = dyq p1 p2 :=
    div_mul_cancel₀ _ (dxq_ne_zero hx)
  have hexp : slopeA p1 p2 * p2.1 - slopeA p1 p2 * p1.1 = p2.2 - p1.2 := by
    rw [← mul_sub]
    exact hmul
  linarith

lemma lineX_swap (p1 p2 : ℚ × ℚ) : lineX p2 p1 = lineX p1 p2 := by
  funext r
  unfold lineX
  rw [min_comm p2.1 p1.1, max_comm p2.1 p1.1, nSamples_swap p1 p2]

lemma lineY_swap (p1 p2 : ℚ × ℚ) (hx : ¬ p1.1 = p2.1) : lineY p2 p1 = lineY p1 p2 := by
  funext r
  unfold lineY
  rw [slopeA_swap p1 p2, interceptB_swap p1 p2 hx, lineX_swap p1 p2]

lemma yWidth_swap (p1 p2 : ℚ × ℚ) (lw : ℤ) : yWidth p2 p1 lw = yWidth p1 p2 lw := by
  unfold yWidth
  rw [hypotSq_swap p1 p2]
  rw [show ((dxq p2 p1 : ℚ) : ℝ) = -((dxq p1 p2 : ℚ) : ℝ) from by
        rw [dxq_swap p1 p2]; push_cast; ring]
  rw [show (lw : ℝ) * (-((dxq p1 p2 : ℚ) : ℝ) / Real.sqrt ((hypotSq p1 p2 : ℚ) : ℝ)) / 2
        = -((lw : ℝ) * (((dxq p1 p2 : ℚ) : ℝ) / Real.sqrt ((hypotSq p1 p2 : ℚ) : ℝ)) / 2) from by
        ring]
  exact abs_neg _

lemma perpY_swap (p1 p2 : ℚ × ℚ) (lw : ℤ) (hx : ¬ p1.1 = p2.1) :
    perpY p2 p1 lw = perpY p1 p2 lw := by
  funext r c
  unfold perpY
  rw [lineY_swap p1 p2 hx, yWidth_swap p1 p2 lw]

lemma perpX_swap (p1 p2 : ℚ × ℚ) (lw : ℤ) (hx : ¬ p1.1 = p2.1) :
    perpX p2 p1 lw = perpX p1 p2 lw := by
  funext r c
  unfold perpX
  rw [slopeA_swap p1 p2, perpY_swap p1 p2 lw hx, lineX_swap p1 p2, lineY_swap p1 p2 hx]

lemma perpCoord_swap (p1 p2 : ℚ × ℚ) (lw : ℤ) (hx : ¬ p1.1 = p2.1) :
    perpCoord p2 p1 lw = perpCoord p1 p2 lw := by
  funext r c
  unfold perpCoord
  rw [perpY_swap p1 p2 lw hx, perpX_swap p1 p2 lw hx]

lemma midDim_swap (p1 p2 : ℚ × ℚ) (lw : ℤ) : midDim p2 p1 lw = midDim p1 p2 lw := by
  unfold midDim
  rw [yWidth_swap p1 p2 lw]

lemma sampleVal_swap (interp : Interp) (p1 p2 : ℚ × ℚ) (lw : ℤ) (hx : ¬ p1.1 = p2.1)
    (chpix : ℕ → ℕ → ℚ) :
    sampleVal interp chpix p2 p1 lw = sampleVal interp chpix p1 p2 lw := by
  funext r c
  unfold sampleVal
  rw [midDim_swap p1 p2 lw, perpCoord_swap p1 p2 lw hx]

lemma writeChannel_swap (interp : Interp) (pix : ℕ → ℕ → Fin 3 → ℚ)
    (p1 p2 : ℚ × ℚ) (lw : ℤ) (hx : ¬ p1.1 = p2.1) :
    writeChannel interp pix p2 p1 lw = writeChannel interp pix p1 p2 lw := by
  funext s i
  unfold writeChannel
  simp only [nSamples_swap p1 p2, midDim_swap p1 p2 lw,
    sampleVal_swap interp p1 p2 lw hx]

lemma obliqueGray_swap (interp : Interp) (pix : ℕ → ℕ → ℚ) (p1 p2 : ℚ × ℚ) (lw : ℤ)
    (hx : ¬ p1.1 = p2.1) :
    obliqueGray interp pix p2 p1 lw = obliqueGray interp pix p1 p2 lw := by
  unfold obliqueGray
  simp only [nSamples_swap p1 p2, perpCoord_swap p1 p2 lw hx]

lemma obliqueRGB_swap (interp : Interp) (pix : ℕ → ℕ → Fin 3 → ℚ) (p1 p2 : ℚ × ℚ)
    (lw : ℤ) (s : MemState) (hx : ¬ p1.1 = p2.1) :
    obliqueRGB interp pix p2 p1 lw s = obliqueRGB interp pix p1 p2 lw s := by
  unfold obliqueRGB
  simp only [nSamples_swap p1 p2, midDim_swap p1 p2 lw,
    writeChannel_swap interp pix p1 p2 lw hx]

/-- C2 amended: on an oblique line, swapping point1 and point2 yields the
identical profile, not the reversed one: the sampling grid is built from
min and max of the endpoint x coordinates, so the profile always runs from
the smaller-x endpoint toward the larger-x endpoint regardless of the
argument order. -/
theorem claim_C2_swap_gives_identical_profile (interp : Interp) (img : Image)
    (p1 p2 : ℚ × ℚ) (lw : ℤ) (hx : ¬ p1.1 = p2.1) (hy : ¬ p1.2 = p2.2) :
    profile_line interp img p2 p1 lw = profile_line interp img p1 p2 lw := by
  have hx2 : ¬ p2.1 = p1.1 := fun h => hx h.symm
  have hy2 : ¬ p2.2 = p1.2 := fun h => hy h.symm
  cases img with
  | gray g =>
      rw [profile_line_obl_gray interp g p2 p1 lw hx2 hy2,
          profile_line_obl_gray interp g p1 p2 lw hx hy,
          obliqueGray_swap interp g.pix p1 p2 lw hx]
  | rgb g =>
      rw [profile_line_obl_rgb interp g p2 p1 lw hx2 hy2,
          profile_line_obl_rgb interp g p1 p2 lw hx hy,
          obliqueRGB_swap interp g.pix p1 p2 lw _ hx]

/-- The interpolation function that map_coordinates realizes on the column
ramp image img[y, x] = x: spline interpolation reproduces polynomials of low
degree exactly in the interior, so the interpolated sample at (y, x) is the
coordinate x itself. -/
def interpX : Interp := fun _ c => c.2

lemma slopeA_0043 : slopeA ((0 : ℚ), 0) ((4 : ℚ), 3) = 3 / 4 := by
  unfold slopeA dxq dyq
  norm_num

lemma interceptB_0043 : interceptB ((0 : ℚ), 0) ((4 : ℚ), 3) = 0 := by
  unfold interceptB
  rw [slopeA_0043]
  norm_num

lemma lineX_0043 (r : ℕ) : lineX ((0 : ℚ), 0) ((4 : ℚ), 3) r = (r : ℚ) := by
  unfold lineX
  rw [nSamples_0043]
  norm_num [min_def, max_def]

lemma lineY_0043 (r : ℕ) : lineY ((0 : ℚ), 0) ((4 : ℚ), 3) r = 3 / 4 * (r : ℚ) := by
  unfold lineY
  rw [slopeA_0043, interceptB_0043, lineX_0043]
  ring

lemma yWidth_0043 : yWidth ((0 : ℚ), 0) ((4 : ℚ), 3) 1 = 2 / 5 := by
  unfold yWidth
  rw [show hypotSq ((0 : ℚ), 0) ((4 : ℚ), 3) = 25 from by
        unfold hypotSq dxq dyq; norm_num,
      show dxq ((0 : ℚ), 0) ((4 : ℚ), 3) = 4 from by unfold dxq; norm_num]
  rw [show Real.sqrt ((25 : ℚ) : ℝ) = 5 from by
        rw [show ((25 : ℚ) : ℝ) = (5 : ℝ) ^ 2 from by norm_num,
            Real.sqrt_sq (by norm_num : (0 : ℝ) ≤ 5)]]
  rw [show ((1 : ℤ) : ℝ) * (((4 : ℚ) : ℝ) / 5) / 2 = (2 / 5 : ℝ) from by
        push_cast; ring]
  rw [abs_of_nonneg (by norm_num : (0 : ℝ) ≤ 2 / 5)]

lemma perpX_0043 (r : ℕ) : perpX ((0 : ℚ), 0) ((4 : ℚ), 3) 1 r 0 = (r : ℝ) + 3 / 10 := by
  have hpy : perpY ((0 : ℚ), 0) ((4 : ℚ), 3) 1 r 0
      = ((3 / 4 * (r : ℚ) : ℚ) : ℝ) - 2 / 5 := by
    unfold perpY
    rw [lineY_0043, yWidth_0043]
    norm_num
  unfold perpX
  rw [slopeA_0043, hpy, lineX_0043, lineY_0043]
  push_cast
  ring

lemma eval_oblique_ramp :
    profile_line interpX (.gray gray5) ((0 : ℚ), 0) ((4 : ℚ), 3) 1
      = .ok [[(3 : ℝ) / 10], [13 / 10], [23 / 10], [33 / 10], [43 / 10]] := by
  rw [profile_line_obl_gray interpX gray5 ((0 : ℚ), 0) ((4 : ℚ), 3) 1
    (by norm_num) (by norm_num)]
  unfold obliqueGray
  rw [nSamples_0043]
  rw [show List.range (1 : ℤ).toNat = [0] from by decide]
  simp only [interpX, List.map_cons, List.map_nil]
  unfold perpCoord
  simp only [show ∀ x : ℝ, rmean [x] = x from fun x => by simp [rmean]]
  rw [show List.range 5 = [0, 1, 2, 3, 4] from by decide]
  simp only [List.map_cons, List.map_nil, perpX_0043]
  norm_num

/-- C2 counterexample: at the oblique endpoints (0,0), (4,3) on the column
ramp image, the profile with swapped endpoints equals the original profile
(which is strictly increasing), not its reversal, refuting the claim that
swapping point1 and point2 reverses the sample order. -/
theorem claim_C2_counterexample :
    ¬ (profile_line interpX (.gray gray5) ((4 : ℚ), 3) ((0 : ℚ), 0) 1
        = Except.map List.reverse
            (profile_line interpX (.gray gray5) ((0 : ℚ), 0) ((4 : ℚ), 3) 1)) := by
  intro hcontra
  have hswap : profile_line interpX (.gray gray5) ((4 : ℚ), 3) ((0 : ℚ), 0) 1
      = profile_line interpX (.gray gray5) ((0 : ℚ), 0) ((4 : ℚ), 3) 1 := by
    rw [profile_line_obl_gray interpX gray5 ((4 : ℚ), 3) ((0 : ℚ), 0) 1
          (by norm_num) (by norm_num),
        profile_line_obl_gray interpX gray5 ((0 : ℚ), 0) ((4 : ℚ), 3) 1
          (by norm_num) (by norm_num),
        obliqueGray_swap interpX gray5.pix ((0 : ℚ), 0) ((4 : ℚ), 3) 1 (by norm_num)]
  rw [hswap, eval_oblique_ramp] at hcontra
  rw [show Except.map List.reverse
        (Except.ok (ε := String)
          [[(3 : ℝ) / 10], [13 / 10], [23 / 10], [33 / 10], [43 / 10]])
      = Except.ok [[(43 : ℝ) / 10], [33 / 10], [23 / 10], [13 / 10], [3 / 10]] from
      rfl] at hcontra
  injection hcontra with h
  injection h with h1 _
  injection h1 with h2 _
  norm_num at h2

/-- Witness for the amended C2 at the concrete oblique endpoints (0,0) and
(4,3). -/
theorem claim_C2_witness :
    ¬ ((0 : ℚ), (0 : ℚ)).1 = ((4 : ℚ), (3 : ℚ)).1 ∧
      ¬ ((0 : ℚ), (0 : ℚ)).2 = ((4 : ℚ), (3 : ℚ)).2 ∧
      profile_line interpX (.gray gray5) ((4 : ℚ), 3) ((0 : ℚ), 0) 1
        = profile_line interpX (.gray gray5) ((0 : ℚ), 0) ((4 : ℚ), 3) 1 :=
  ⟨by norm_num, by norm_num,
    claim_C2_swap_gives_identical_profile interpX (.gray gray5)
      ((0 : ℚ), 0) ((4 : ℚ), 3) 1 (by norm_num) (by norm_num)⟩

end LineProfile
